import Mathlib

/-!
Shallow embedding of the `rattler_archive` crate
(`crates/rattler_archive/src/{format,error,extractor,progress,async}.rs`).

Rust strings are modelled as lists of Unicode scalar values (`List Nat`);
OS paths are modelled as lists of bytes (`List Nat`), matching the unix
representation of `Path`.  Fallible operations return `Except`; the
filesystem and other environment outcomes are passed in explicitly as a
`World` record, so every definition is executable.
-/

namespace RattlerArchive

/-- The Unicode scalar values of a Lean string literal (a Rust `&str` is a
sequence of Unicode scalar values). -/
def s2n (s : String) : List Nat := s.data.map Char.toNat

/-- One Unicode scalar encoded as UTF-8 bytes. -/
def utf8EncodeScalar (n : Nat) : List Nat :=
  if n < 0x80 then [n]
  else if n < 0x800 then [0xC0 + n / 64, 0x80 + n % 64]
  else if n < 0x10000 then
    [0xE0 + n / 4096, 0x80 + (n / 64) % 64, 0x80 + n % 64]
  else
    [0xF0 + n / 0x40000, 0x80 + (n / 4096) % 64, 0x80 + (n / 64) % 64, 0x80 + n % 64]

/-- The UTF-8 bytes of a Lean string literal (a unix `Path` holds bytes). -/
def strBytes (s : String) : List Nat := ((s2n s).map utf8EncodeScalar).flatten

/-- `str::to_lowercase`, restricted to the ASCII range: every suffix in the
extension table is ASCII, and on ASCII Rust's Unicode lowercasing is exactly
this map. -/
def lowerChar (n : Nat) : Nat := if 65 ≤ n ∧ n ≤ 90 then n + 32 else n

/-- Lower-case a whole string of scalars. -/
def lowerStr (s : List Nat) : List Nat := s.map lowerChar

/-- `str::ends_with` on scalar lists. -/
def endsWithS (s p : List Nat) : Bool := p.isSuffixOf s

/-- `ArchiveFormat` from `format.rs` (the `SevenZip` variant is behind the
`sevenz` cargo feature; detection takes that feature as a flag). -/
inductive ArchiveFormat
  | Tar
  | TarGz
  | TarBz2
  | TarXz
  | TarLzma
  | TarZst
  | Zip
  | SevenZip
  deriving DecidableEq, Repr

/-- The suffix-testing chain of `ArchiveFormat::detect_from_filename`, on
the already lower-cased filename `f` (the source shadows `filename` with
`filename.to_lowercase()` first). -/
def detectLowered (sevenz : Bool) (f : List Nat) : Option ArchiveFormat :=
  if endsWithS f (s2n ".tar.gz") || endsWithS f (s2n ".tgz") || endsWithS f (s2n ".taz") then
    some .TarGz
  else if endsWithS f (s2n ".tar.bz2") || endsWithS f (s2n ".tbz") ||
      endsWithS f (s2n ".tbz2") || endsWithS f (s2n ".tz2") then
    some .TarBz2
  else if endsWithS f (s2n ".tar.xz") || endsWithS f (s2n ".txz") then
    some .TarXz
  else if endsWithS f (s2n ".tar.lzma") || endsWithS f (s2n ".tlz") then
    some .TarLzma
  else if endsWithS f (s2n ".tar.zst") || endsWithS f (s2n ".tzst") then
    some .TarZst
  else if endsWithS f (s2n ".tar") then
    some .Tar
  else if endsWithS f (s2n ".zip") then
    some .Zip
  else if sevenz && endsWithS f (s2n ".7z") then
    some .SevenZip
  else
    none

/-- `ArchiveFormat::detect_from_filename`: lower-case the filename, then run
the suffix chain.  `sevenz` is true when the crate is compiled with the
`sevenz` feature. -/
def detect_from_filename (sevenz : Bool) (filename : List Nat) : Option ArchiveFormat :=
  detectLowered sevenz (lowerStr filename)

/-- Whether any suffix of the extension table matches the (already
lower-cased) filename; used to characterise when detection returns `none`. -/
def matchesAnySuffix (sevenz : Bool) (f : List Nat) : Bool :=
  endsWithS f (s2n ".tar.gz") || endsWithS f (s2n ".tgz") || endsWithS f (s2n ".taz") ||
  endsWithS f (s2n ".tar.bz2") || endsWithS f (s2n ".tbz") ||
  endsWithS f (s2n ".tbz2") || endsWithS f (s2n ".tz2") ||
  endsWithS f (s2n ".tar.xz") || endsWithS f (s2n ".txz") ||
  endsWithS f (s2n ".tar.lzma") || endsWithS f (s2n ".tlz") ||
  endsWithS f (s2n ".tar.zst") || endsWithS f (s2n ".tzst") ||
  endsWithS f (s2n ".tar") ||
  endsWithS f (s2n ".zip") ||
  (sevenz && endsWithS f (s2n ".7z"))

/-- Is `b` a UTF-8 continuation byte? -/
def isCont (b : Nat) : Bool := decide (0x80 ≤ b ∧ b ≤ 0xBF)

/-- Leading byte of a 2-byte UTF-8 sequence. -/
def lead2 (b : Nat) : Bool := decide (0xC2 ≤ b ∧ b ≤ 0xDF)

/-- Leading byte of a 3-byte UTF-8 sequence. -/
def lead3 (b : Nat) : Bool := decide (0xE0 ≤ b ∧ b ≤ 0xEF)

/-- Leading byte of a 4-byte UTF-8 sequence. -/
def lead4 (b : Nat) : Bool := decide (0xF0 ≤ b ∧ b ≤ 0xF4)

/-- Valid second byte for a 3-byte sequence with leading byte `b`
(excludes overlong encodings and surrogates, as Rust's `str` validation does). -/
def cont3ok (b b2 : Nat) : Bool :=
  (decide (b = 0xE0) && decide (0xA0 ≤ b2 ∧ b2 ≤ 0xBF)) ||
  (decide (b = 0xED) && decide (0x80 ≤ b2 ∧ b2 ≤ 0x9F)) ||
  (decide (b ≠ 0xE0 ∧ b ≠ 0xED) && isCont b2)

/-- Valid second byte for a 4-byte sequence with leading byte `b`. -/
def cont4ok (b b2 : Nat) : Bool :=
  (decide (b = 0xF0) && decide (0x90 ≤ b2 ∧ b2 ≤ 0xBF)) ||
  (decide (b = 0xF4) && decide (0x80 ≤ b2 ∧ b2 ≤ 0x8F)) ||
  (decide (0xF1 ≤ b ∧ b ≤ 0xF3) && isCont b2)

/-- Strict UTF-8 decoding of a byte list into Unicode scalar values;
`none` on invalid UTF-8.  Models `OsStr::to_str`. -/
def utf8Decode : List Nat → Option (List Nat)
  | [] => some []
  | b :: rest =>
    if b < 0x80 then (utf8Decode rest).map (b :: ·)
    else if lead2 b then
      match rest with
      | b2 :: rest2 =>
        if isCont b2 then
          (utf8Decode rest2).map (((b - 0xC0) * 64 + (b2 - 0x80)) :: ·)
        else none
      | [] => none
    else if lead3 b then
      match rest with
      | b2 :: b3 :: rest3 =>
        if cont3ok b b2 && isCont b3 then
          (utf8Decode rest3).map (((b - 0xE0) * 4096 + (b2 - 0x80) * 64 + (b3 - 0x80)) :: ·)
        else none
      | _ => none
    else if lead4 b then
      match rest with
      | b2 :: b3 :: b4 :: rest4 =>
        if cont4ok b b2 && isCont b3 && isCont b4 then
          (utf8Decode rest4).map
            (((b - 0xF0) * 0x40000 + (b2 - 0x80) * 4096 + (b3 - 0x80) * 64 + (b4 - 0x80)) :: ·)
        else none
      | _ => none
    else none

/-- Split a byte list at `/` (byte 47); groups may be empty. -/
def splitOnSlash (l : List Nat) : List (List Nat) :=
  l.foldr
    (fun b acc =>
      if b = 47 then [] :: acc
      else
        match acc with
        | [] => [[b]]
        | g :: gs => (b :: g) :: gs)
    [[]]

/-- `Path::file_name` on unix path bytes: the last normal component
(empty and `.` components are skipped; a trailing `..` has no file name). -/
def path_file_name (p : List Nat) : Option (List Nat) :=
  let comps := (splitOnSlash p).filter (fun c => decide (c ≠ [] ∧ c ≠ [46]))
  match comps.getLast? with
  | none => none
  | some c => if c = [46, 46] then none else some c

/-- `ArchiveFormat::detect_from_path`:
`path.file_name().and_then(OsStr::to_str).and_then(Self::detect_from_filename)`. -/
def detect_from_path (sevenz : Bool) (p : List Nat) : Option ArchiveFormat :=
  (path_file_name p).bind (fun f => (utf8Decode f).bind (detect_from_filename sevenz))

/-- A parsed URL, reduced to the two projections the code uses:
`Url::path()` (path component only — no query or fragment) and the full
rendering used in error messages. -/
structure Url where
  full : String
  path : String

/-- `ArchiveFormat::detect_from_url`: applies file-name extraction and
filename detection to the URL's path component. -/
def detect_from_url (sevenz : Bool) (u : Url) : Option ArchiveFormat :=
  detect_from_path sevenz (strBytes u.path)

/-- `ArchiveError` from `error.rs`.  `Io` carries the display of the wrapped
`std::io::Error` (the `#[from]` conversion used by the `?` operator). -/
inductive ArchiveError
  | Io (message : String)
  | UnsupportedFormat (filename : String)
  | TarExtraction (message : String)
  | ZipExtraction (message : String)
  | SevenZipExtraction (message : String)
  | TempDirCreation (reason : String)
  | FormatDetection (context : String) (reason : String)
  | EmptyArchive
  | RootDirectoryStripping (path : String) (reason : String)
  deriving DecidableEq, Repr

/-- Is the error the `RootDirectoryStripping` variant? -/
def ArchiveError.isRootStripping : ArchiveError → Bool
  | .RootDirectoryStripping _ _ => true
  | _ => false

/-- A filesystem entry: a file with its bytes, or a directory with its
immediate children (name/entry pairs, in directory order). -/
inductive FsEntry
  | file (content : List Nat)
  | dir (entries : List (String × FsEntry))

/-- A directory listing: immediate children as name/entry pairs. -/
abbrev Listing := List (String × FsEntry)

/-- The move loop at the end of `Extractor::move_extracted_dir`:
`fs_err::rename` each child of the effective root into the destination.
`renameErr name = some reason` means renaming the child called `name`
fails with that `io::Error` (e.g. a cross-device link); the `?` operator
lifts it to `ArchiveError::Io`.  Returns the loop's result together with
the destination listing as it stands when the loop stops. -/
def moveEntries (renameErr : String → Option String) :
    Listing → Listing → Except ArchiveError Unit × Listing
  | [], dest => (.ok (), dest)
  | (n, e) :: rest, dest =>
    match renameErr n with
    | some reason => (.error (.Io reason), dest)
    | none => moveEntries renameErr rest (dest ++ [(n, e)])

/-- `Extractor::move_extracted_dir`: if the scratch listing has exactly one
entry and it is a directory, move that directory's children, else move the
scratch listing itself; an empty listing is `EmptyArchive`. -/
def move_extracted_dir (renameErr : String → Option String) (src dest : Listing) :
    Except ArchiveError Unit × Listing :=
  match src with
  | [] => (.error .EmptyArchive, dest)
  | [(_, .dir children)] => moveEntries renameErr children dest
  | entries => moveEntries renameErr entries dest

/-- Outcomes of the environment (filesystem, codecs, containers) consumed by
one `extract` call.  `some msg` in an error field means that step fails with
an `io::Error` (or container error) displaying `msg`; `unpackResult` is the
tree the container unpacker produces on success. -/
structure World where
  createDirErr : Option String
  fileSize : Option Nat
  openErr : Option String
  decoderErr : Option String
  tempdirErr : Option String
  zipNewErr : Option String
  unpackErr : Option String
  unpackResult : Listing
  renameErr : String → Option String

/-- The `TarCompression` enum from `extractor.rs`. -/
inductive TarCompression
  | Plain
  | Gzip
  | Bzip2
  | Xz
  | Zstd
  deriving DecidableEq, Repr

/-- `Extractor::extract_tar`: open the file, build the decompressing reader
(only the zstd constructor is fallible), then either unpack to a scratch
directory and normalise (strip on) or unpack straight into the destination
(strip off).  The result carries the destination's final listing. -/
def extract_tar (w : World) (strip : Bool) (compression : TarCompression)
    (dest : Listing) : Except ArchiveError Listing :=
  match w.openErr with
  | some e => .error (.Io e)
  | none =>
    match (match compression with | .Zstd => w.decoderErr | _ => none) with
    | some e => .error (.Io e)
    | none =>
      if strip then
        match w.tempdirErr with
        | some e => .error (.Io e)
        | none =>
          match w.unpackErr with
          | some m => .error (.TarExtraction m)
          | none =>
            match move_extracted_dir w.renameErr w.unpackResult dest with
            | (.ok _, dest2) => .ok dest2
            | (.error err, _) => .error err
      else
        match w.unpackErr with
        | some m => .error (.TarExtraction m)
        | none => .ok (dest ++ w.unpackResult)

/-- `Extractor::extract_zip`; `ZipArchive::new` and `extract` failures map to
`ZipExtraction`. -/
def extract_zip (w : World) (strip : Bool) (dest : Listing) :
    Except ArchiveError Listing :=
  match w.openErr with
  | some e => .error (.Io e)
  | none =>
    match w.zipNewErr with
    | some m => .error (.ZipExtraction m)
    | none =>
      if strip then
        match w.tempdirErr with
        | some e => .error (.Io e)
        | none =>
          match w.unpackErr with
          | some m => .error (.ZipExtraction m)
          | none =>
            match move_extracted_dir w.renameErr w.unpackResult dest with
            | (.ok _, dest2) => .ok dest2
            | (.error err, _) => .error err
      else
        match w.unpackErr with
        | some m => .error (.ZipExtraction m)
        | none => .ok (dest ++ w.unpackResult)

/-- `Extractor::extract_7z` (behind the `sevenz` feature); decompression
failures map to `SevenZipExtraction`. -/
def extract_7z (w : World) (strip : Bool) (dest : Listing) :
    Except ArchiveError Listing :=
  match w.openErr with
  | some e => .error (.Io e)
  | none =>
    if strip then
      match w.tempdirErr with
      | some e => .error (.Io e)
      | none =>
        match w.unpackErr with
        | some m => .error (.SevenZipExtraction m)
        | none =>
          match move_extracted_dir w.renameErr w.unpackResult dest with
          | (.ok _, dest2) => .ok dest2
          | (.error err, _) => .error err
    else
      match w.unpackErr with
      | some m => .error (.SevenZipExtraction m)
      | none => .ok (dest ++ w.unpackResult)

/-- The configuration an `ExtractorBuilder` bakes into an `Extractor`:
the root-stripping flag and the optional explicit format. -/
structure Config where
  strip_root_dir : Bool
  format : Option ArchiveFormat

/-- Observable operations of one `extract` call, in order: the
`create_dir_all` on the destination, the `on_start` progress signal, the
dispatch on the resolved format, and (async only) the hand-off of the
closure to a worker thread. -/
inductive Op
  | createDirAll
  | start (size : Option Nat)
  | dispatch (fmt : ArchiveFormat)
  | offload
  deriving DecidableEq, Repr

/-- `Extractor::extract`.  Archive paths here are well-formed Unicode
strings, so `archive_path.display().to_string()` is the path itself.
Step order from the source: resolve the format (explicit override or
`detect_from_path`), create the destination directory, query the size and
signal `on_start`, then dispatch on the format.  The `Op` trace records the
steps that were reached. -/
def extract (sevenz : Bool) (cfg : Config) (w : World) (archive_path : String)
    (dest : Listing) : Except ArchiveError Listing × List Op :=
  match (match cfg.format with
         | some f => some f
         | none => detect_from_path sevenz (strBytes archive_path)) with
  | none => (.error (.UnsupportedFormat archive_path), [])
  | some fmt =>
    match w.createDirErr with
    | some e => (.error (.Io e), [.createDirAll])
    | none =>
      let r :=
        match fmt with
        | .Tar => extract_tar w cfg.strip_root_dir .Plain dest
        | .TarGz => extract_tar w cfg.strip_root_dir .Gzip dest
        | .TarBz2 => extract_tar w cfg.strip_root_dir .Bzip2 dest
        | .TarXz => extract_tar w cfg.strip_root_dir .Xz dest
        | .TarLzma => extract_tar w cfg.strip_root_dir .Xz dest
        | .TarZst => extract_tar w cfg.strip_root_dir .Zstd dest
        | .Zip => extract_zip w cfg.strip_root_dir dest
        | .SevenZip => extract_7z w cfg.strip_root_dir dest
      (r, [.createDirAll, .start w.fileSize, .dispatch fmt])

/-- `tokio::task::JoinError`: the spawned worker either panicked or was
cancelled. -/
inductive JoinErr
  | panic (message : String)
  | cancelled
  deriving DecidableEq, Repr

/-- The display of a `JoinError`, as wrapped by
`std::io::Error::new(ErrorKind::Other, e)`. -/
def joinErrDisplay : JoinErr → String
  | .panic m => "task panicked: " ++ m
  | .cancelled => "task was cancelled"

/-- What an awaited async call can deliver: a normal return value, or a
panic re-raised on the awaiting side (what `std::panic::resume_unwind`
after `JoinError::into_panic` would produce). -/
inductive AsyncResult
  | value (r : Except ArchiveError Listing)
  | panicked (message : String)

/-- Is the delivered outcome a re-raised panic? -/
def AsyncResult.isPanicked : AsyncResult → Bool
  | .panicked _ => true
  | _ => false

/-- `AsyncExtractor::extract`: offload the synchronous `extract` to a worker
thread and await it.  `join = some e` means the join handle resolved with a
`JoinError` (worker panicked, or the task was cancelled); the source maps it
with `.map_err(|e| ArchiveError::Io(io::Error::new(ErrorKind::Other, e)))?`. -/
def async_extract (sevenz : Bool) (cfg : Config) (w : World) (join : Option JoinErr)
    (archive_path : String) (dest : Listing) : AsyncResult × List Op :=
  match join with
  | some e => (.value (.error (.Io (joinErrDisplay e))), [.offload])
  | none =>
    let (r, t) := extract sevenz cfg w archive_path dest
    (.value r, .offload :: t)

/-- `AsyncExtractor::extract_from_url`: resolve a format from the override
or the URL path; if neither yields one, fail with `FormatDetection` before
any offload; otherwise call the plain async `extract` (which resolves the
format again from the override or the archive path — the URL-derived value
is dropped). -/
def extract_from_url (sevenz : Bool) (cfg : Config) (w : World) (join : Option JoinErr)
    (archive_path : String) (url : Url) (dest : Listing) : AsyncResult × List Op :=
  let format :=
    match cfg.format with
    | some f => some f
    | none => detect_from_url sevenz url
  match format with
  | none =>
    (.value (.error (.FormatDetection ("URL: " ++ url.full)
      "Could not detect archive format from URL path")), [])
  | some _ => async_extract sevenz cfg w join archive_path dest

/-- One call of `<ProgressReader as Read>::read`, given the running total
`bytesRead` and the inner reader's result: forward the inner result; on
success add the count to the total and call `on_progress` with the new
total (returned as the list of `on_progress` arguments this call emits);
the `?` on a failed inner read skips both. -/
def progress_read (bytesRead : Nat) (inner : Except String Nat) :
    Except String Nat × Nat × List Nat :=
  match inner with
  | .error e => (.error e, bytesRead, [])
  | .ok n => (.ok n, bytesRead + n, [bytesRead + n])

/-- Run a sequence of reads through the `ProgressReader`, returning the
final running total and all `on_progress` arguments in order. -/
def runReads : Nat → List (Except String Nat) → Nat × List Nat
  | t, [] => (t, [])
  | t, r :: rs =>
    let (_, t2, evs) := progress_read t r
    let (tf, rest) := runReads t2 rs
    (tf, evs ++ rest)

/-- The byte counts of the successful reads, in order. -/
def okCounts (l : List (Except String Nat)) : List Nat :=
  l.filterMap (fun r => match r with | .ok n => some n | .error _ => none)

/-- Running sums of a list starting from `t`: `[t+a, t+a+b, ...]`. -/
def runningSums : Nat → List Nat → List Nat
  | _, [] => []
  | t, n :: ns => (t + n) :: runningSums (t + n) ns

/-- Every element of the list is ≥ the bound and the list is
non-decreasing left to right. -/
def nondecrFrom : Nat → List Nat → Prop
  | _, [] => True
  | t, n :: ns => t ≤ n ∧ nondecrFrom n ns

theorem lowerChar_idem (n : Nat) : lowerChar (lowerChar n) = lowerChar n := by
  unfold lowerChar
  by_cases h : 65 ≤ n ∧ n ≤ 90
  · simp [h]
    omega
  · simp [h]

theorem lowerStr_idem (s : List Nat) : lowerStr (lowerStr s) = lowerStr s := by
  unfold lowerStr
  rw [List.map_map]
  apply List.map_congr_left
  intro a _
  exact lowerChar_idem a

theorem detect_lower (b : Bool) (s : List Nat) :
    detect_from_filename b (lowerStr s) = detect_from_filename b s := by
  simp only [detect_from_filename, lowerStr_idem]

theorem detect_targz_first (b : Bool) (s : List Nat)
    (h : endsWithS (lowerStr s) (s2n ".tar.gz") = true) :
    detect_from_filename b s = some .TarGz := by
  unfold detect_from_filename detectLowered
  rw [h]
  rfl

theorem detect_none_iff (b : Bool) (f : List Nat) :
    detectLowered b f = none ↔ matchesAnySuffix b f = false := by
  unfold detectLowered matchesAnySuffix
  generalize endsWithS f (s2n ".tar.gz") = b1
  generalize endsWithS f (s2n ".tgz") = b2
  generalize endsWithS f (s2n ".taz") = b3
  generalize endsWithS f (s2n ".tar.bz2") = b4
  generalize endsWithS f (s2n ".tbz") = b5
  generalize endsWithS f (s2n ".tbz2") = b6
  generalize endsWithS f (s2n ".tz2") = b7
  generalize endsWithS f (s2n ".tar.xz") = b8
  generalize endsWithS f (s2n ".txz") = b9
  generalize endsWithS f (s2n ".tar.lzma") = b10
  generalize endsWithS f (s2n ".tlz") = b11
  generalize endsWithS f (s2n ".tar.zst") = b12
  generalize endsWithS f (s2n ".tzst") = b13
  generalize endsWithS f (s2n ".tar") = b14
  generalize endsWithS f (s2n ".zip") = b15
  generalize endsWithS f (s2n ".7z") = b16
  repeat' split
  all_goals simp_all
  all_goals (intros; simp_all)

/-- C1: format detection lower-cases the filename and tests the extension
table's suffixes most-compound first: detection is insensitive to
lower-casing its input, any filename whose lower-casing ends in `.tar.gz`
resolves to `TarGz` (never `Tar`), detection returns `none` exactly when no
suffix of the table matches, `"FILE.TAR.GZ"` yields `TarGz`, `"File.Zip"`
yields `Zip`, `"file.txt"` yields `none`, `"a.tar.gz"` yields `TarGz` and
not `Tar`, and `.7z` is recognised exactly when the 7z capability is
compiled in. -/
theorem c1_detect_from_filename_spec :
    (∀ b s, detect_from_filename b (lowerStr s) = detect_from_filename b s) ∧
    (∀ b s, endsWithS (lowerStr s) (s2n ".tar.gz") = true →
      detect_from_filename b s = some ArchiveFormat.TarGz) ∧
    (∀ b s, detect_from_filename b s = none ↔
      matchesAnySuffix b (lowerStr s) = false) ∧
    (∀ b, detect_from_filename b (s2n "FILE.TAR.GZ") = some ArchiveFormat.TarGz) ∧
    (∀ b, detect_from_filename b (s2n "File.Zip") = some ArchiveFormat.Zip) ∧
    (∀ b, detect_from_filename b (s2n "file.txt") = none) ∧
    (∀ b, detect_from_filename b (s2n "a.tar.gz") = some ArchiveFormat.TarGz ∧
      detect_from_filename b (s2n "a.tar.gz") ≠ some ArchiveFormat.Tar) ∧
    detect_from_filename true (s2n "file.7z") = some ArchiveFormat.SevenZip ∧
    detect_from_filename false (s2n "file.7z") = none :=
  ⟨detect_lower,
   detect_targz_first,
   fun b s => detect_none_iff b (lowerStr s),
   fun b => by cases b <;> decide,
   fun b => by cases b <;> decide,
   fun b => by cases b <;> decide,
   fun b => by cases b <;> decide,
   by decide, by decide⟩

theorem c1_detect_from_filename_spec_witness :
    endsWithS (lowerStr (s2n "a.tar.gz")) (s2n ".tar.gz") = true ∧
    detect_from_filename false (s2n "a.tar.gz") = some ArchiveFormat.TarGz :=
  ⟨by decide, c1_detect_from_filename_spec.2.1 false (s2n "a.tar.gz") (by decide)⟩

/-- C10: detection from a path or URL depends only on the final path
component: `detect_from_path` is filename detection composed with
`file_name` extraction and UTF-8 decoding, `detect_from_url` applies the
same pipeline to the URL's path component, a path whose parent directories
carry archive suffixes but whose filename does not yields `none` (also when
there is no file-name component at all), a path whose filename component is
not valid UTF-8 yields `none`, and the filename's own suffix decides the
result. -/
theorem c10_detect_from_path_spec :
    (∀ b p, detect_from_path b p =
      (path_file_name p).bind (fun f => (utf8Decode f).bind (detect_from_filename b))) ∧
    (∀ b u, detect_from_url b u = detect_from_path b (strBytes u.path)) ∧
    (∀ b, detect_from_path b (strBytes "a.tar.gz/file.txt") = none) ∧
    (∀ b, detect_from_path b (strBytes "dir.tar.gz/..") = none) ∧
    (∀ b, detect_from_path b (strBytes "pkg/" ++ 255 :: strBytes "x.tar.gz") = none) ∧
    (∀ b, detect_from_path b (strBytes "dir/file.tar.gz") = some ArchiveFormat.TarGz) :=
  ⟨fun _ _ => rfl,
   fun _ _ => rfl,
   fun b => by cases b <;> decide,
   fun b => by cases b <;> decide,
   fun b => by cases b <;> decide,
   fun b => by cases b <;> decide⟩

theorem moveEntries_ok (l : Listing) (dest : Listing) :
    moveEntries (fun _ => none) l dest = (.ok (), dest ++ l) := by
  induction l generalizing dest with
  | nil => simp [moveEntries]
  | cons e rest ih =>
    obtain ⟨n, en⟩ := e
    simp [moveEntries, ih]

theorem moveEntries_abort (rf : String → Option String) (front rest : Listing)
    (n : String) (e : FsEntry) (reason : String) (dest : Listing)
    (hok : ∀ p ∈ front, rf p.1 = none) (hfail : rf n = some reason) :
    moveEntries rf (front ++ (n, e) :: rest) dest = (.error (.Io reason), dest ++ front) := by
  induction front generalizing dest with
  | nil => simp [moveEntries, hfail]
  | cons q front' ih =>
    obtain ⟨m, em⟩ := q
    have hm : rf m = none := hok (m, em) (by simp)
    have hok' : ∀ p ∈ front', rf p.1 = none := fun p hp => hok p (by simp [hp])
    simp only [List.cons_append, moveEntries, hm, List.append_eq]
    rw [ih (dest ++ [(m, em)]) hok']
    simp

def c2WorldPkg : World :=
  ⟨none, none, none, none, none, none, none,
   [("pkg", FsEntry.dir [("a.txt", FsEntry.file (s2n "hello"))])], fun _ => none⟩

def c2WorldTwo : World :=
  ⟨none, none, none, none, none, none, none,
   [("a.txt", FsEntry.file (s2n "hello")), ("b.txt", FsEntry.file (s2n "world"))],
   fun _ => none⟩

/-- C2: root normalization moves the single top-level directory's children
into the destination when the scratch listing is exactly one directory, and
otherwise (two or more entries, or a single non-directory) moves the
scratch listing itself; concretely, an archive containing only `pkg/a.txt`
extracts to `<dest>/a.txt` with stripping on and `<dest>/pkg/a.txt` with
stripping off, while top-level `a.txt` and `b.txt` land at the destination
root under both flags. -/
theorem c2_move_extracted_dir_spec :
    (∀ name children dest,
      move_extracted_dir (fun _ => none) [(name, FsEntry.dir children)] dest =
        (.ok (), dest ++ children)) ∧
    (∀ p q rest dest,
      move_extracted_dir (fun _ => none) (p :: q :: rest) dest =
        (.ok (), dest ++ p :: q :: rest)) ∧
    (∀ name content dest,
      move_extracted_dir (fun _ => none) [(name, FsEntry.file content)] dest =
        (.ok (), dest ++ [(name, FsEntry.file content)])) ∧
    extract_tar c2WorldPkg true .Gzip [] = .ok [("a.txt", FsEntry.file (s2n "hello"))] ∧
    extract_tar c2WorldPkg false .Gzip [] =
      .ok [("pkg", FsEntry.dir [("a.txt", FsEntry.file (s2n "hello"))])] ∧
    extract_tar c2WorldTwo true .Gzip [] =
      .ok [("a.txt", FsEntry.file (s2n "hello")), ("b.txt", FsEntry.file (s2n "world"))] ∧
    extract_tar c2WorldTwo false .Gzip [] =
      .ok [("a.txt", FsEntry.file (s2n "hello")), ("b.txt", FsEntry.file (s2n "world"))] := by
  refine ⟨?_, ?_, ?_, rfl, rfl, rfl, rfl⟩
  · intro name children dest
    exact moveEntries_ok children dest
  · intro p q rest dest
    obtain ⟨n1, e1⟩ := p
    cases e1 <;> exact moveEntries_ok _ dest
  · intro name content dest
    exact moveEntries_ok [(name, FsEntry.file content)] dest

def c3RenameErr : String → Option String :=
  fun n => if n = "b.txt" then some "cross-device link" else none

/-- C3 counterexample: with a single root directory `root/` holding
`a.txt`, `b.txt`, `c.txt` and the rename of `b.txt` failing, the reported
error is `Io` (from the `?` on `fs_err::rename`), not
`RootDirectoryStripping`. -/
theorem c3_rename_error_counterexample :
    move_extracted_dir c3RenameErr
      [("root", FsEntry.dir
        [("a.txt", FsEntry.file [97]), ("b.txt", FsEntry.file [98]),
         ("c.txt", FsEntry.file [99])])] [] =
      (.error (.Io "cross-device link"), [("a.txt", FsEntry.file [97])]) ∧
    (ArchiveError.Io "cross-device link").isRootStripping = false :=
  ⟨rfl, rfl⟩

/-- C3 amended: when a rename fails during root normalization, the failure
is reported as `ArchiveError::Io` wrapping the platform error (never as
`RootDirectoryStripping`), the remaining moves are aborted, and the entries
already moved stay in the destination (no rollback). -/
theorem c3_rename_error_amended (rf : String → Option String) (name : String)
    (front rest : Listing) (n : String) (e : FsEntry) (reason : String) (dest : Listing)
    (hok : ∀ p ∈ front, rf p.1 = none) (hfail : rf n = some reason) :
    move_extracted_dir rf [(name, FsEntry.dir (front ++ (n, e) :: rest))] dest =
      (.error (.Io reason), dest ++ front) ∧
    (ArchiveError.Io reason).isRootStripping = false :=
  ⟨moveEntries_abort rf front rest n e reason dest hok hfail, rfl⟩

theorem c3_rename_error_amended_witness :
    move_extracted_dir c3RenameErr
      [("root", FsEntry.dir
        ([("a.txt", FsEntry.file [97])] ++ ("b.txt", FsEntry.file [98]) ::
          [("c.txt", FsEntry.file [99])]))] [] =
      (.error (.Io "cross-device link"), [] ++ [("a.txt", FsEntry.file [97])]) ∧
    (ArchiveError.Io "cross-device link").isRootStripping = false :=
  c3_rename_error_amended c3RenameErr "root" [("a.txt", FsEntry.file [97])]
    [("c.txt", FsEntry.file [99])] "b.txt" (FsEntry.file [98]) "cross-device link" []
    (by intro p hp; simp at hp; rw [hp]; decide) rfl

def c5World : World :=
  ⟨none, none, none, none, some "permission denied", none, none, [], fun _ => none⟩

/-- C5 counterexample: when the scratch directory cannot be created,
`tempfile::tempdir()?` lifts the `io::Error` into `ArchiveError::Io`, not
into `TempDirCreation`. -/
theorem c5_tempdir_counterexample :
    extract_tar c5World true .Gzip [] = .error (.Io "permission denied") ∧
    ArchiveError.Io "permission denied" ≠
      ArchiveError.TempDirCreation "permission denied" :=
  ⟨rfl, by decide⟩

/-- C5 amended: with root stripping enabled, a failure to create the
scratch directory makes `extract_tar` fail with `Io` carrying the reason;
the `TempDirCreation` variant is never produced. -/
theorem c5_tempdir_failure (w : World) (c : TarCompression) (dest : Listing)
    (reason : String) (hopen : w.openErr = none) (hdec : w.decoderErr = none)
    (htmp : w.tempdirErr = some reason) :
    extract_tar w true c dest = .error (.Io reason) ∧
    ∀ r, extract_tar w true c dest ≠ .error (.TempDirCreation r) := by
  have h : extract_tar w true c dest = .error (.Io reason) := by
    cases c <;> simp [extract_tar, hopen, hdec, htmp]
  exact ⟨h, fun r => by rw [h]; simp⟩

theorem c5_tempdir_failure_witness :
    extract_tar c5World true .Gzip [] = .error (.Io "permission denied") :=
  (c5_tempdir_failure c5World .Gzip [] "permission denied" rfl rfl rfl).1

def c6World : World :=
  ⟨none, none, none, none, none, none, none, [], fun _ => none⟩

/-- C6: an archive that unpacks to zero entries in the scratch directory
fails with `EmptyArchive` when root stripping is enabled; the normalizer
itself returns `EmptyArchive` on an empty listing. -/
theorem c6_empty_archive (w : World) (c : TarCompression) (dest : Listing)
    (hopen : w.openErr = none) (hdec : w.decoderErr = none) (htmp : w.tempdirErr = none)
    (hunp : w.unpackErr = none) (hres : w.unpackResult = []) :
    extract_tar w true c dest = .error .EmptyArchive ∧
    move_extracted_dir w.renameErr [] dest = (.error .EmptyArchive, dest) := by
  constructor
  · cases c <;> simp [extract_tar, hopen, hdec, htmp, hunp, hres, move_extracted_dir]
  · rfl

theorem c6_empty_archive_witness :
    extract_tar c6World true .Plain [] = .error .EmptyArchive :=
  (c6_empty_archive c6World .Plain [] rfl rfl rfl rfl rfl).1

def c7World : World :=
  ⟨some "should not matter", some 42, some "x", some "x", some "x", some "x", some "x",
   [("junk", FsEntry.file [])], fun _ => some "x"⟩

/-- C7 counterexample: `extract` passes
`archive_path.display().to_string()` — the display of the whole path — to
`UnsupportedFormat`, not the bare filename: for `dir/file.bin` the error
carries `"dir/file.bin"` although the filename is `"file.bin"`. -/
theorem c7_unsupported_counterexample :
    (extract true ⟨true, none⟩ c7World "dir/file.bin" []).1 =
      .error (.UnsupportedFormat "dir/file.bin") ∧
    path_file_name (strBytes "dir/file.bin") = some (strBytes "file.bin") ∧
    ArchiveError.UnsupportedFormat "dir/file.bin" ≠
      ArchiveError.UnsupportedFormat "file.bin" :=
  ⟨rfl, by decide, by decide⟩

/-- C7 amended: with no explicit format override, an archive path whose
filename yields no detected format makes `extract` fail with
`UnsupportedFormat` carrying the display of the full archive path, and the
failure happens before the destination directory is created (the trace is
empty, whatever the environment would do). -/
theorem c7_unsupported_format (sevenz : Bool) (cfg : Config) (w : World)
    (p : String) (dest : Listing)
    (hover : cfg.format = none)
    (hdet : detect_from_path sevenz (strBytes p) = none) :
    extract sevenz cfg w p dest = (.error (.UnsupportedFormat p), []) ∧
    Op.createDirAll ∉ (extract sevenz cfg w p dest).2 := by
  have h : extract sevenz cfg w p dest = (.error (.UnsupportedFormat p), []) := by
    simp [extract, hover, hdet]
  exact ⟨h, by rw [h]; simp⟩

theorem c7_unsupported_format_witness :
    extract true ⟨true, none⟩ c7World "file.txt" [] =
      (.error (.UnsupportedFormat "file.txt"), []) :=
  (c7_unsupported_format true ⟨true, none⟩ c7World "file.txt" [] rfl (by decide)).1

def c4World : World :=
  ⟨none, none, none, none, none, none, none, [("test.txt", FsEntry.file (s2n "hello"))],
   fun _ => none⟩

def c4UrlTarGz : Url := ⟨"https://example.com/b.tar.gz", "/b.tar.gz"⟩

def c4UrlPlain : Url := ⟨"https://example.com/data", "/data"⟩

/-- C4 counterexample: the URL-resolved format is not used for the
extraction: with no override, archive path `a.zip` and URL path
`/b.tar.gz`, URL detection yields `TarGz` but the extraction dispatches on
`Zip` (re-detected from the archive path). -/
theorem c4_url_counterexample :
    detect_from_url true c4UrlTarGz = some ArchiveFormat.TarGz ∧
    (extract_from_url true ⟨false, none⟩ c4World none "a.zip" c4UrlTarGz []).2 =
      [.offload, .createDirAll, .start none, .dispatch ArchiveFormat.Zip] ∧
    Op.dispatch ArchiveFormat.Zip ≠ Op.dispatch ArchiveFormat.TarGz :=
  ⟨by decide, rfl, by decide⟩

/-- C4 amended: `extract_from_url` resolves a format from the override or,
failing that, from the URL's path component, and when neither yields one it
fails with `FormatDetection` before any work is offloaded to a worker
thread (no `offload` in the trace); when a format is resolvable it
delegates to the plain async `extract`, which re-resolves the format from
the override or the archive path — the URL-derived value is dropped. -/
theorem c4_extract_from_url_spec (sevenz : Bool) (cfg : Config) (w : World)
    (join : Option JoinErr) (p : String) (u : Url) (dest : Listing) :
    (cfg.format = none → detect_from_url sevenz u = none →
      extract_from_url sevenz cfg w join p u dest =
        (.value (.error (.FormatDetection ("URL: " ++ u.full)
          "Could not detect archive format from URL path")), []) ∧
      Op.offload ∉ (extract_from_url sevenz cfg w join p u dest).2) ∧
    (∀ f, cfg.format = none → detect_from_url sevenz u = some f →
      extract_from_url sevenz cfg w join p u dest =
        async_extract sevenz cfg w join p dest) := by
  constructor
  · intro hover hdet
    have h : extract_from_url sevenz cfg w join p u dest =
        (.value (.error (.FormatDetection ("URL: " ++ u.full)
          "Could not detect archive format from URL path")), []) := by
      simp [extract_from_url, hover, hdet]
    exact ⟨h, by rw [h]; simp⟩
  · intro f hover hdet
    simp [extract_from_url, hover, hdet]

theorem c4_extract_from_url_spec_witness :
    extract_from_url true ⟨true, none⟩ c4World none "a.zip" c4UrlPlain [] =
      (.value (.error (.FormatDetection ("URL: " ++ c4UrlPlain.full)
        "Could not detect archive format from URL path")), []) :=
  ((c4_extract_from_url_spec true ⟨true, none⟩ c4World none "a.zip" c4UrlPlain []).1
    rfl (by decide)).1

def c8World : World :=
  ⟨none, none, none, none, none, none, none, [], fun _ => none⟩

/-- C8 counterexample: a worker panic surfaces as the converted
`ArchiveError::Io` value (`map_err` on the `JoinError`), not as a re-raised
panic on the awaiting side. -/
theorem c8_join_counterexample :
    async_extract true ⟨true, none⟩ c8World (some (.panic "boom")) "a.tar.gz" [] =
      (.value (.error (.Io "task panicked: boom")), [.offload]) ∧
    (async_extract true ⟨true, none⟩ c8World
      (some (.panic "boom")) "a.tar.gz" []).1.isPanicked = false :=
  ⟨rfl, rfl⟩

/-- C8 amended: every abnormal worker termination observed through the join
handle — panic or cancellation — is converted into a generic
`ArchiveError::Io` wrapping the join error's display; it is never re-raised
to the caller. -/
theorem c8_join_error_conversion (sevenz : Bool) (cfg : Config) (w : World)
    (e : JoinErr) (p : String) (dest : Listing) :
    async_extract sevenz cfg w (some e) p dest =
      (.value (.error (.Io (joinErrDisplay e))), [.offload]) ∧
    (async_extract sevenz cfg w (some e) p dest).1.isPanicked = false :=
  ⟨rfl, rfl⟩

theorem runReads_events (l : List (Except String Nat)) :
    ∀ t, (runReads t l).2 = runningSums t (okCounts l) ∧
      (runReads t l).1 = t + (okCounts l).sum := by
  induction l with
  | nil => intro t; simp [runReads, okCounts, runningSums]
  | cons r rs ih =>
    intro t
    cases r with
    | error e =>
      have h := ih t
      simp only [runReads, progress_read, okCounts, List.filterMap_cons] at *
      simpa using h
    | ok n =>
      have h := ih (t + n)
      simp only [runReads, progress_read, okCounts, List.filterMap_cons,
        runningSums, List.sum_cons] at *
      refine ⟨by simpa using h.1, ?_⟩
      rw [h.2]
      omega

theorem nondecr_runningSums (l : List Nat) : ∀ t, nondecrFrom t (runningSums t l) := by
  induction l with
  | nil => intro t; simp [runningSums, nondecrFrom]
  | cons n ns ih => intro t; exact ⟨Nat.le_add_right t n, ih (t + n)⟩

/-- C9: the progress reader forwards every inner read unchanged, a
successful read of `n` bytes (including `n = 0` at EOF) adds `n` to the
running total and emits exactly one `on_progress` call with the new total,
the emitted totals are the running sums of the successful inner read
counts, the final total is the initial total plus their sum, and the
emitted sequence is monotone non-decreasing. -/
theorem c9_progress_reader_spec :
    (∀ t r, (progress_read t r).1 = r) ∧
    (∀ t n, progress_read t (.ok n) = (.ok n, t + n, [t + n])) ∧
    (∀ t l, (runReads t l).2 = runningSums t (okCounts l)) ∧
    (∀ t l, (runReads t l).1 = t + (okCounts l).sum) ∧
    (∀ t l, nondecrFrom t (runReads t l).2) := by
  refine ⟨?_, fun t n => rfl, ?_, ?_, ?_⟩
  · intro t r
    cases r <;> rfl
  · intro t l
    exact (runReads_events l t).1
  · intro t l
    exact (runReads_events l t).2
  · intro t l
    rw [(runReads_events l t).1]
    exact nondecr_runningSums (okCounts l) t

end RattlerArchive
